import Mathlib

/-!
Verification of the adaptive video compression search of
`vision_ai_tools/video_adaptive_compress.py`.

The Python module is shallowly embedded: the external encoder (ffmpeg) is
modelled as an oracle mapping a fully assembled parameter set to an encode
result (success with an output size, a timeout, or a failure with a stderr
message); Python floats are modelled as exact rationals; Python `int(...)`
truncation is modelled by `pytruncQ`.  All control flow of the search
(`adaptive_compress_video`) is translated function by function.
-/

namespace AdaptiveCompress

/-- A parameter set for a single encode invocation, minus the codec:
the arguments of the inner `try_encode` closure (preset, pix_fmt and
audio codec are forwarded verbatim to ffmpeg and are irrelevant to the
search logic, so they are not modelled). -/
structure AParams where
  fps : Option ℚ
  height : Option ℤ
  crf : Option ℤ
  videoBitrate : Option String
  audioBitrate : String
deriving Repr, DecidableEq

/-- A fully assembled encoder invocation: `AParams` plus the chosen codec,
exactly the data `_encode_once` turns into an ffmpeg command line. -/
structure EncodeParams where
  codec : String
  fps : Option ℚ
  height : Option ℤ
  crf : Option ℤ
  videoBitrate : Option String
  audioBitrate : String
deriving Repr, DecidableEq

/-- Possible outcomes of running the external encoder once
(`subprocess.run` inside `_run_ffmpeg` followed by `os.path.getsize`):
a produced file of a given size, a `TimeoutExpired`, or a
`CalledProcessError` carrying stderr (which is also how an unavailable
encoder manifests). -/
inductive EncodeResult where
  | ok (size : ℕ)
  | timeout
  | failed (stderr : String)
deriving Repr, DecidableEq

/-- The Encoder Invoker collaborator: deterministic response per
parameter set. -/
def Oracle : Type := EncodeParams → EncodeResult

/-- The `ValueError`s raised by the module, tagged by the raise site:
configuration validation, probe validation, or encoding
(`_run_ffmpeg` / `_encode_once`). -/
inductive SearchError where
  | configError (msg : String)
  | inputError (msg : String)
  | encodeError (msg : String)
deriving Repr, DecidableEq

/-- Python `int(x)` on a float: truncation toward zero. -/
def pytruncQ (q : ℚ) : ℤ := if 0 ≤ q then ⌊q⌋ else ⌈q⌉

/-- Value of a nonempty all-digit character list, `none` otherwise. -/
def digitsVal? (cs : List Char) : Option ℕ :=
  if cs = [] then none
  else
    cs.foldl
      (fun acc? c =>
        match acc? with
        | none => none
        | some acc => if c.isDigit then some (acc * 10 + (c.toNat - 48)) else none)
      (some 0)

/-- Python `str.lower()` (ASCII range, the one relevant to codec names and
bitrate suffixes), written over the character list so that it is fully
evaluable. -/
def strLower (s : String) : String :=
  ⟨s.data.map (fun c => if 'A' ≤ c ∧ c ≤ 'Z' then Char.ofNat (c.toNat + 32) else c)⟩

/-- Python `str.strip()`: drop leading and trailing whitespace. -/
def strTrim (s : String) : String :=
  ⟨((s.data.dropWhile Char.isWhitespace).reverse.dropWhile Char.isWhitespace).reverse⟩

/-- Python `str.endswith(suffix)`. -/
def strEndsWith (s suffix : String) : Bool :=
  suffix.data.isSuffixOf s.data

/-- Python `s[:-n]` for `n ≥ 1`. -/
def strDropRight (s : String) (n : ℕ) : String :=
  ⟨s.data.take (s.data.length - n)⟩

/-- Python `int(s)` on a string: optional sign then digits
(whitespace stripped); `none` models a raised `ValueError`. -/
def parsePyInt? (s : String) : Option ℤ :=
  match (strTrim s).toList with
  | '+' :: rest => (digitsVal? rest).map (fun n => (n : ℤ))
  | '-' :: rest => (digitsVal? rest).map (fun n => -(n : ℤ))
  | cs => (digitsVal? cs).map (fun n => (n : ℤ))

/-- Helper for `parsePyFloat?`: unsigned decimal `digits[.digits]`. -/
def parseDecimal? (cs : List Char) : Option ℚ :=
  match cs.splitOn '.' with
  | [intp] => (digitsVal? intp).map (fun n => (n : ℚ))
  | [intp, fracp] =>
    if intp = [] ∧ fracp = [] then none
    else
      match (if intp = [] then some 0 else digitsVal? intp),
            (if fracp = [] then some 0 else digitsVal? fracp) with
      | some i, some f => some ((i : ℚ) + (f : ℚ) / ((10 : ℚ) ^ fracp.length))
      | _, _ => none
  | _ => none

/-- Python `float(s)` restricted to plain decimal literals with an optional
sign (the forms the audio-bitrate strings actually take); `none` models a
raised `ValueError`. -/
def parsePyFloat? (s : String) : Option ℚ :=
  match (strTrim s).toList with
  | '+' :: rest => parseDecimal? rest
  | '-' :: rest => (parseDecimal? rest).map (fun q => -q)
  | cs => parseDecimal? cs

/-- The audio-bitrate parsing block of `adaptive_compress_video`
(lines 352-362): suffix `k` means x1000, `m` means x1000000, otherwise a
plain integer; any parse failure falls back to 128000. -/
def parseAudioBitrate (s : String) : ℤ :=
  if strEndsWith (strLower s) "k" then
    match parsePyFloat? (strDropRight s 1) with
    | some q => pytruncQ (q * 1000)
    | none => 128000
  else if strEndsWith (strLower s) "m" then
    match parsePyFloat? (strDropRight s 1) with
    | some q => pytruncQ (q * 1000000)
    | none => 128000
  else
    match parsePyInt? s with
    | some n => n
    | none => 128000

/-- `total_bps = int(target_bytes * 8 / max(0.1, duration))`. -/
def computeTotalBps (target_bytes : ℤ) (duration : ℚ) : ℤ :=
  pytruncQ ((target_bytes * 8 : ℚ) / max (1 / 10) duration)

/-- `target_video_bps = max(200_000, int(total_bps * 0.95) - a_bps)`. -/
def computeTargetVideoBps (target_bytes : ℤ) (duration : ℚ) (audio_bitrate : String) : ℤ :=
  max 200000 (pytruncQ ((computeTotalBps target_bytes duration : ℚ) * (95 / 100))
    - parseAudioBitrate audio_bitrate)

/-- `v_bitrate = f"{int(target_video_bps/1000)}k"`. -/
def stage3VBitrate (target_bytes : ℤ) (duration : ℚ) (audio_bitrate : String) : String :=
  toString (pytruncQ ((computeTargetVideoBps target_bytes duration audio_bitrate : ℚ) / 1000))
    ++ "k"

/-- One iteration of the candidate-ladder loops: append `some x` when the
stage-specific guard `P x` holds and the value is not already present
(Python `x not in candidates`, where `x == None` is always false). -/
def ladderStep {α : Type} [DecidableEq α] (P : α → Prop) [DecidablePred P]
    (acc : List (Option α)) (x : α) : List (Option α) :=
  if P x ∧ some x ∉ acc then acc ++ [some x] else acc

/-- Frame-rate candidates (lines 189-196): start from `[None]`, append each
of 24, 15, 12, `min_fps` that is below the input fps and not yet present,
then force-append `min_fps` under the same conditions. -/
def fpsCandidates (input_fps min_fps : ℚ) : List (Option ℚ) :=
  let l1 := [(24 : ℚ), 15, 12, min_fps].foldl
    (ladderStep (fun f => f < input_fps)) [none]
  if min_fps < input_fps ∧ some min_fps ∉ l1 then l1 ++ [some min_fps] else l1

/-- Resolution candidates (lines 198-204): start from `[None]`, append each
of 2160, 1440, 1080, 720, `min_height` that is below the (truthy) input
height, at least `min_height` and not yet present, then force-append
`min_height`. -/
def heightCandidates (input_h min_height : ℤ) : List (Option ℤ) :=
  let l1 := [(2160 : ℤ), 1440, 1080, 720, min_height].foldl
    (ladderStep (fun h => input_h ≠ 0 ∧ h < input_h ∧ min_height ≤ h)) [none]
  if input_h ≠ 0 ∧ min_height < input_h ∧ some min_height ∉ l1 then
    l1 ++ [some min_height]
  else l1

/-- Truthiness of the optional `video_bitrate` string in `_encode_once`
(`if video_bitrate:`): present and nonempty. -/
def truthyOpt : Option String → Bool
  | none => false
  | some s => s ≠ ""

/-- `try_encode` = `_encode_once` + `os.path.getsize`: raises when neither
rate-control mode is set (before invoking ffmpeg), otherwise consults the
encoder and maps `TimeoutExpired` / `CalledProcessError` to the
`ValueError`s of `_run_ffmpeg`.  Returns the list of encoder invocations
actually performed alongside the result. -/
def encodeOnce (oracle : Oracle) (p : EncodeParams) :
    List EncodeParams × Except SearchError ℕ :=
  if truthyOpt p.videoBitrate = false ∧ p.crf = none then
    ([], .error (.encodeError "crf must be provided when video_bitrate is not set"))
  else
    ([p],
      match oracle p with
      | .ok s => .ok s
      | .timeout => .error (.encodeError "ffmpeg execution timeout")
      | .failed m => .error (.encodeError ("ffmpeg execution failed: " ++ m)))

/-- Attach a codec to an attempt parameter set. -/
def mkParams (codec : String) (p : AParams) : EncodeParams :=
  ⟨codec, p.fps, p.height, p.crf, p.videoBitrate, p.audioBitrate⟩

/-- `encode_with_codec_fallback` (lines 239-270): try the preferred codec;
on any `ValueError` retry once with the fallback codec when one exists
(codec preference `auto`), propagating the retry's own failure. -/
def encodeWithCodecFallback (oracle : Oracle) (preferred : String)
    (fallback : Option String) (p : AParams) :
    List EncodeParams × Except SearchError (String × ℕ) :=
  match encodeOnce oracle (mkParams preferred p) with
  | (tr, .ok size) => (tr, .ok (preferred, size))
  | (tr, .error e) =>
    match fallback with
    | none => (tr, .error e)
    | some fb =>
      match encodeOnce oracle (mkParams fb p) with
      | (tr2, .ok size) => (tr ++ tr2, .ok (fb, size))
      | (tr2, .error e2) => (tr ++ tr2, .error e2)

/-- One row of the attempt log: the `Attempt` dataclass. -/
structure Attempt where
  fps : Option ℚ
  height : Option ℤ
  video_codec : String
  crf : Option ℤ
  video_bitrate : Option String
  audio_bitrate : String
  output_bytes : ℕ
deriving Repr, DecidableEq

/-- The context shared by all attempts of one search run. -/
structure Ctx where
  oracle : Oracle
  preferred : String
  fallback : Option String
  crf : ℤ
  audio_bitrate : String
  target_bytes : ℤ

/-- Result of one stage loop: an output within budget, exhaustion of the
candidate list (with the last candidate tried), or a fatal encode error. -/
inductive StageStep (α : Type) where
  | success (attempts : List Attempt) (size : ℕ)
  | exhausted (attempts : List Attempt) (last : α)
  | fatal (e : SearchError)

/-- Parameters of a stage-1 attempt: frame-rate candidate only, CRF rate
control. -/
def s1Params (ctx : Ctx) (f : Option ℚ) : AParams :=
  ⟨f, none, some ctx.crf, none, ctx.audio_bitrate⟩

/-- Stage 1 loop (lines 272-308): try each frame-rate candidate in order,
recording an attempt each time, stopping at the first size within budget. -/
def stage1Run (ctx : Ctx) :
    List (Option ℚ) → List Attempt → Option ℚ →
      List EncodeParams × StageStep (Option ℚ)
  | [], attempts, lastFps => ([], .exhausted attempts lastFps)
  | f :: rest, attempts, lastFps =>
    match encodeWithCodecFallback ctx.oracle ctx.preferred ctx.fallback (s1Params ctx f) with
    | (tr, .error e) => (tr, .fatal e)
    | (tr, .ok (codecUsed, size)) =>
      let a : Attempt := ⟨f, none, codecUsed, some ctx.crf, none, ctx.audio_bitrate, size⟩
      if (size : ℤ) ≤ ctx.target_bytes then (tr, .success (attempts ++ [a]) size)
      else
        let r := stage1Run ctx rest (attempts ++ [a]) f
        (tr ++ r.1, r.2)

/-- Parameters of a stage-2 attempt: last stage-1 frame rate plus a
resolution candidate, CRF rate control. -/
def s2Params (ctx : Ctx) (lastFps : Option ℚ) (h : Option ℤ) : AParams :=
  ⟨lastFps, h, some ctx.crf, none, ctx.audio_bitrate⟩

/-- Stage 2 loop (lines 310-345): resolution candidates after the first
(`keep`) entry, frame rate fixed at the last stage-1 candidate. -/
def stage2Run (ctx : Ctx) (lastFps : Option ℚ) :
    List (Option ℤ) → List Attempt → Option ℤ →
      List EncodeParams × StageStep (Option ℤ)
  | [], attempts, lastH => ([], .exhausted attempts lastH)
  | h :: rest, attempts, lastH =>
    match encodeWithCodecFallback ctx.oracle ctx.preferred ctx.fallback
        (s2Params ctx lastFps h) with
    | (tr, .error e) => (tr, .fatal e)
    | (tr, .ok (codecUsed, size)) =>
      let a : Attempt := ⟨lastFps, h, codecUsed, some ctx.crf, none, ctx.audio_bitrate, size⟩
      if (size : ℤ) ≤ ctx.target_bytes then (tr, .success (attempts ++ [a]) size)
      else
        let r := stage2Run ctx lastFps rest (attempts ++ [a]) h
        (tr ++ r.1, r.2)

/-- Frame rate of the stage-3 encode:
`last_fps if last_fps is not None else float(min_fps)`. -/
def stage3Fps (lastFps : Option ℚ) (min_fps : ℚ) : ℚ := lastFps.getD min_fps

/-- Height of the stage-3 encode: `last_height if last_height is not None
else (int(min_height) if input_h and input_h > int(min_height) else None)`. -/
def stage3Height (lastHeight : Option ℤ) (input_h min_height : ℤ) : Option ℤ :=
  match lastHeight with
  | some h => some h
  | none => if input_h ≠ 0 ∧ min_height < input_h then some min_height else none

/-- Parameters of the stage-3 attempt: bitrate rate control, no CRF. -/
def s3Params (ctx : Ctx) (fps : ℚ) (height : Option ℤ) (vb : String) : AParams :=
  ⟨some fps, height, none, some vb, ctx.audio_bitrate⟩

/-- The returned result dictionary (the fields carrying search state;
input/output path plumbing is not modelled). -/
structure Outcome where
  target_bytes : ℤ
  actual_bytes : ℕ
  strategy : String
  success : Bool
  attempts : List Attempt
deriving Repr, DecidableEq

/-- The three-stage search (lines 272-402), from candidate lists to the
final result dictionary, threading the list of encoder invocations. -/
def runSearch (ctx : Ctx) (fpsCands : List (Option ℚ)) (heightCands : List (Option ℤ))
    (duration : ℚ) (min_fps : ℚ) (min_height input_h : ℤ) :
    List EncodeParams × Except SearchError Outcome :=
  match stage1Run ctx fpsCands [] none with
  | (tr1, .fatal e) => (tr1, .error e)
  | (tr1, .success attempts size) =>
    (tr1, .ok ⟨ctx.target_bytes, size, "fps", true, attempts⟩)
  | (tr1, .exhausted attempts1 lastFps) =>
    match stage2Run ctx lastFps (heightCands.drop 1) attempts1 none with
    | (tr2, .fatal e) => (tr1 ++ tr2, .error e)
    | (tr2, .success attempts size) =>
      (tr1 ++ tr2, .ok ⟨ctx.target_bytes, size, "fps+scale", true, attempts⟩)
    | (tr2, .exhausted attempts2 lastHeight) =>
      let vb := stage3VBitrate ctx.target_bytes duration ctx.audio_bitrate
      match encodeWithCodecFallback ctx.oracle ctx.preferred ctx.fallback
          (s3Params ctx (stage3Fps lastFps min_fps)
            (stage3Height lastHeight input_h min_height) vb) with
      | (tr3, .error e) => (tr1 ++ tr2 ++ tr3, .error e)
      | (tr3, .ok (codecUsed, size)) =>
        let a : Attempt := ⟨some (stage3Fps lastFps min_fps), lastHeight, codecUsed,
          none, some vb, ctx.audio_bitrate, size⟩
        (tr1 ++ tr2 ++ tr3,
          .ok ⟨ctx.target_bytes, size, "fps+scale+bitrate",
            decide ((size : ℤ) ≤ ctx.target_bytes), attempts2 ++ [a]⟩)

/-- The caller-facing configuration of `adaptive_compress_video`
(arguments that influence the search). -/
structure Config where
  target_bytes? : Option ℤ
  target_mb? : Option ℚ
  video_codec : String
  crf : ℤ
  audio_bitrate : String
  min_fps : ℚ
  min_height : ℤ
  timeout_s : ℤ

/-- What the Media Prober reports (`probe.probe_video`). -/
structure ProbeResult where
  has_video : Bool
  duration_s : Option ℚ
  video_fps : Option ℚ
  video_height : Option ℤ

/-- `_pick_codec` (lines 104-113). -/
def pickCodec (video_codec : String) : Except SearchError (String × Option String) :=
  let c := strLower (strTrim (if video_codec = "" then "auto" else video_codec))
  if c = "auto" then .ok ("libx265", some "libx264")
  else if c = "libx265" ∨ c = "libx264" then .ok (c, none)
  else .error (.configError "video_codec must be one of: auto, libx265, libx264")

/-- Target-size validation (lines 154-162): exactly one of
`target_bytes`/`target_mb`, positivity, MiB-to-bytes conversion. -/
def resolveTargetBytes (cfg : Config) : Except SearchError ℤ :=
  if cfg.target_bytes?.isNone = cfg.target_mb?.isNone then
    .error (.configError "Provide exactly one of target_bytes or target_mb")
  else
    match cfg.target_mb? with
    | some mb =>
      if mb ≤ 0 then .error (.configError "target_mb must be positive")
      else
        if pytruncQ (mb * 1024 * 1024) ≤ 0 then
          .error (.configError "target_bytes must be positive")
        else .ok (pytruncQ (mb * 1024 * 1024))
    | none =>
      if cfg.target_bytes?.getD 0 ≤ 0 then
        .error (.configError "target_bytes must be positive")
      else .ok (cfg.target_bytes?.getD 0)

/-- All configuration validation performed before any probe or encode
(lines 154-168). -/
def validate (cfg : Config) : Except SearchError ℤ :=
  match resolveTargetBytes cfg with
  | .error e => .error e
  | .ok tb =>
    if cfg.min_fps ≤ 0 then .error (.configError "min_fps must be positive")
    else if cfg.min_height ≤ 0 then .error (.configError "min_height must be positive")
    else if cfg.timeout_s ≤ 0 then .error (.configError "timeout_s must be positive")
    else .ok tb

/-- Probe-result validation (lines 181-184). -/
def checkProbe (p : ProbeResult) : Except SearchError ℚ :=
  if p.has_video = false then .error (.inputError "Input has no video stream")
  else
    match p.duration_s with
    | none => .error (.inputError "Failed to determine input duration")
    | some d =>
      if d ≤ 0 then .error (.inputError "Failed to determine input duration") else .ok d

/-- `input_fps = p.video_fps or 30.0`. -/
def inputFpsOf (p : ProbeResult) : ℚ :=
  match p.video_fps with
  | none => 30
  | some f => if f = 0 then 30 else f

/-- `input_h = p.video_height or 0`. -/
def inputHOf (p : ProbeResult) : ℤ :=
  match p.video_height with
  | none => 0
  | some h => h

/-- `adaptive_compress_video` end to end: validation, codec selection,
probe checks, candidate generation, then the three-stage search. -/
def fullRun (cfg : Config) (p : ProbeResult) (oracle : Oracle) :
    List EncodeParams × Except SearchError Outcome :=
  match validate cfg with
  | .error e => ([], .error e)
  | .ok tb =>
    match pickCodec cfg.video_codec with
    | .error e => ([], .error e)
    | .ok (preferred, fallback) =>
      match checkProbe p with
      | .error e => ([], .error e)
      | .ok duration =>
        let ctx : Ctx := ⟨oracle, preferred, fallback, cfg.crf, cfg.audio_bitrate, tb⟩
        runSearch ctx (fpsCandidates (inputFpsOf p) cfg.min_fps)
          (heightCandidates (inputHOf p) cfg.min_height)
          duration cfg.min_fps cfg.min_height (inputHOf p)

lemma ladderFold_spec {α : Type} [DecidableEq α] (P : α → Prop) [DecidablePred P] :
    ∀ (fs : List α) (acc : List (Option α)),
      ∃ delta, fs.foldl (ladderStep P) acc = acc ++ delta ∧
        delta.Sublist (fs.map some) ∧ delta.Nodup ∧
        (∀ x : α, some x ∈ delta ↔ some x ∉ acc ∧ x ∈ fs ∧ P x) ∧
        (∀ o ∈ delta, o.isSome) := by
  intro fs
  induction fs with
  | nil => exact fun acc => ⟨[], by simp⟩
  | cons f rest ih =>
    intro acc
    rw [List.foldl_cons]
    by_cases hc : P f ∧ some f ∉ acc
    · obtain ⟨delta, h1, h2, h3, h4, h5⟩ := ih (acc ++ [some f])
      refine ⟨some f :: delta, ?_, ?_, ?_, ?_, ?_⟩
      · simp only [ladderStep, if_pos hc] at h1 ⊢
        rw [h1, List.append_assoc]
        rfl
      · exact List.Sublist.cons₂ _ h2
      · refine List.nodup_cons.mpr ⟨fun hmem => ?_, h3⟩
        have := (h4 f).mp hmem
        exact this.1 (by simp)
      · intro x
        constructor
        · intro hx
          rcases List.mem_cons.mp hx with hx | hx
          · obtain rfl : f = x := by simpa using hx.symm
            exact ⟨hc.2, by simp, hc.1⟩
          · obtain ⟨hnotin, hmem, hP⟩ := (h4 x).mp hx
            exact ⟨fun h => hnotin (by simp [h]), by simp [hmem], hP⟩
        · rintro ⟨hnotin, hmem, hP⟩
          by_cases hxf : x = f
          · subst hxf; exact List.mem_cons_self _ _
          · have hmem' : x ∈ rest := by
              rcases List.mem_cons.mp hmem with h | h
              · exact absurd h hxf
              · exact h
            refine List.mem_cons.mpr (Or.inr ((h4 x).mpr ⟨?_, hmem', hP⟩))
            intro hx
            rcases List.mem_append.mp hx with h | h
            · exact hnotin h
            · exact hxf (by simpa using h)
      · intro o ho
        rcases List.mem_cons.mp ho with rfl | ho
        · rfl
        · exact h5 o ho
    · obtain ⟨delta, h1, h2, h3, h4, h5⟩ := ih acc
      refine ⟨delta, ?_, List.Sublist.cons _ h2, h3, ?_, h5⟩
      · simp only [ladderStep, if_neg hc]; exact h1
      · intro x
        rw [h4 x]
        constructor
        · rintro ⟨hnotin, hmem, hP⟩
          exact ⟨hnotin, by simp [hmem], hP⟩
        · rintro ⟨hnotin, hmem, hP⟩
          rcases List.mem_cons.mp hmem with rfl | hmem'
          · exact absurd ⟨hP, hnotin⟩ hc
          · exact ⟨hnotin, hmem', hP⟩

lemma encodeOnce_eq_of_rc (oracle : Oracle) (p : EncodeParams)
    (h : truthyOpt p.videoBitrate = true ∨ p.crf ≠ none) :
    encodeOnce oracle p =
      ([p],
        match oracle p with
        | .ok s => .ok s
        | .timeout => .error (.encodeError "ffmpeg execution timeout")
        | .failed m => .error (.encodeError ("ffmpeg execution failed: " ++ m))) := by
  unfold encodeOnce
  rw [if_neg]
  rintro ⟨h1, h2⟩
  rcases h with h | h
  · rw [h1] at h; exact Bool.false_ne_true h
  · exact h h2

lemma encodeWithCodecFallback_pref_fail (oracle : Oracle) (pref fb : String)
    (p : AParams)
    (hrc : truthyOpt p.videoBitrate = true ∨ p.crf ≠ none)
    (hfail : ∀ n, oracle (mkParams pref p) ≠ .ok n) :
    encodeWithCodecFallback oracle pref (some fb) p =
      ([mkParams pref p, mkParams fb p],
        match oracle (mkParams fb p) with
        | .ok s => .ok (fb, s)
        | .timeout => .error (.encodeError "ffmpeg execution timeout")
        | .failed m => .error (.encodeError ("ffmpeg execution failed: " ++ m))) := by
  have hrc' : ∀ c, truthyOpt (mkParams c p).videoBitrate = true ∨ (mkParams c p).crf ≠ none :=
    fun _ => hrc
  unfold encodeWithCodecFallback
  rw [encodeOnce_eq_of_rc oracle _ (hrc' pref)]
  cases hp : oracle (mkParams pref p) with
  | ok s => exact absurd hp (hfail s)
  | timeout =>
    dsimp only
    rw [encodeOnce_eq_of_rc oracle _ (hrc' fb)]
    cases hq : oracle (mkParams fb p) <;> rfl
  | failed m =>
    dsimp only
    rw [encodeOnce_eq_of_rc oracle _ (hrc' fb)]
    cases hq : oracle (mkParams fb p) <;> rfl

lemma stage1Run_fatal_step (ctx : Ctx) (f : Option ℚ) (rest : List (Option ℚ))
    (att : List Attempt) (last : Option ℚ) (tr : List EncodeParams) (e : SearchError)
    (h : encodeWithCodecFallback ctx.oracle ctx.preferred ctx.fallback (s1Params ctx f)
      = (tr, .error e)) :
    stage1Run ctx (f :: rest) att last = (tr, .fatal e) := by
  simp only [stage1Run, h]

lemma stage1Run_ok_step (ctx : Ctx) (f : Option ℚ) (rest : List (Option ℚ))
    (att : List Attempt) (last : Option ℚ) (tr : List EncodeParams)
    (c : String) (s : ℕ)
    (h : encodeWithCodecFallback ctx.oracle ctx.preferred ctx.fallback (s1Params ctx f)
      = (tr, .ok (c, s))) :
    stage1Run ctx (f :: rest) att last =
      (if (s : ℤ) ≤ ctx.target_bytes then
        (tr, .success (att ++ [⟨f, none, c, some ctx.crf, none, ctx.audio_bitrate, s⟩]) s)
      else
        (tr ++ (stage1Run ctx rest
          (att ++ [⟨f, none, c, some ctx.crf, none, ctx.audio_bitrate, s⟩]) f).1,
         (stage1Run ctx rest
          (att ++ [⟨f, none, c, some ctx.crf, none, ctx.audio_bitrate, s⟩]) f).2)) := by
  simp only [stage1Run, h]

lemma stage2Run_ok_step (ctx : Ctx) (lf : Option ℚ) (h0 : Option ℤ)
    (rest : List (Option ℤ)) (att : List Attempt) (last : Option ℤ)
    (tr : List EncodeParams) (c : String) (s : ℕ)
    (h : encodeWithCodecFallback ctx.oracle ctx.preferred ctx.fallback (s2Params ctx lf h0)
      = (tr, .ok (c, s))) :
    stage2Run ctx lf (h0 :: rest) att last =
      (if (s : ℤ) ≤ ctx.target_bytes then
        (tr, .success (att ++ [⟨lf, h0, c, some ctx.crf, none, ctx.audio_bitrate, s⟩]) s)
      else
        (tr ++ (stage2Run ctx lf rest
          (att ++ [⟨lf, h0, c, some ctx.crf, none, ctx.audio_bitrate, s⟩]) h0).1,
         (stage2Run ctx lf rest
          (att ++ [⟨lf, h0, c, some ctx.crf, none, ctx.audio_bitrate, s⟩]) h0).2)) := by
  simp only [stage2Run, h]

lemma stage1Run_exhausted_spec (ctx : Ctx) :
    ∀ (cands : List (Option ℚ)) (att : List Attempt) (last : Option ℚ)
      (tr : List EncodeParams) (a' : List Attempt) (l : Option ℚ),
      stage1Run ctx cands att last = (tr, .exhausted a' l) →
      ∃ delta, a' = att ++ delta ∧ delta.map Attempt.fps = cands ∧
        l = cands.getLastD last ∧
        (∀ e ∈ delta, e.height = none ∧ e.crf = some ctx.crf ∧
          e.video_bitrate = none ∧ e.audio_bitrate = ctx.audio_bitrate ∧
          ctx.target_bytes < (e.output_bytes : ℤ)) := by
  intro cands
  induction cands with
  | nil =>
    intro att last tr a' l h
    simp only [stage1Run, Prod.mk.injEq] at h
    obtain ⟨-, h2⟩ := h
    cases h2
    exact ⟨[], by simp⟩
  | cons f rest ih =>
    intro att last tr a' l h
    rcases hE : encodeWithCodecFallback ctx.oracle ctx.preferred ctx.fallback
        (s1Params ctx f) with ⟨trE, resE⟩
    cases resE with
    | error e =>
      rw [stage1Run_fatal_step ctx f rest att last trE e hE] at h
      exact StageStep.noConfusion (Prod.mk.injEq .. ▸ h).2
    | ok p =>
      obtain ⟨c, s⟩ := p
      rw [stage1Run_ok_step ctx f rest att last trE c s hE] at h
      by_cases hle : (s : ℤ) ≤ ctx.target_bytes
      · rw [if_pos hle] at h
        exact StageStep.noConfusion (Prod.mk.injEq .. ▸ h).2
      · rw [if_neg hle] at h
        have h2 := (Prod.mk.injEq .. ▸ h).2
        have hpair : stage1Run ctx rest
            (att ++ [⟨f, none, c, some ctx.crf, none, ctx.audio_bitrate, s⟩]) f
            = ((stage1Run ctx rest
                (att ++ [⟨f, none, c, some ctx.crf, none, ctx.audio_bitrate, s⟩]) f).1,
               .exhausted a' l) := by
          rw [← h2]
        obtain ⟨delta', hd1, hd2, hd3, hd4⟩ := ih _ f _ a' l hpair
        refine ⟨⟨f, none, c, some ctx.crf, none, ctx.audio_bitrate, s⟩ :: delta', ?_, ?_, ?_, ?_⟩
        · rw [hd1, List.append_assoc]; rfl
        · simp [hd2]
        · rw [hd3, List.getLastD_cons]
        · intro e he
          rcases List.mem_cons.mp he with rfl | he
          · exact ⟨rfl, rfl, rfl, rfl, not_le.mp hle⟩
          · exact hd4 e he

lemma stage1Run_success_spec (ctx : Ctx) :
    ∀ (cands : List (Option ℚ)) (att : List Attempt) (last : Option ℚ)
      (tr : List EncodeParams) (a' : List Attempt) (s : ℕ),
      stage1Run ctx cands att last = (tr, .success a' s) →
      ∃ delta, a' = att ++ delta ∧ delta ≠ [] ∧
        (delta.map Attempt.fps).IsPrefix cands ∧
        (s : ℤ) ≤ ctx.target_bytes ∧
        (∀ e ∈ delta, e.height = none ∧ e.crf = some ctx.crf ∧
          e.video_bitrate = none ∧ e.audio_bitrate = ctx.audio_bitrate) := by
  intro cands
  induction cands with
  | nil =>
    intro att last tr a' s h
    simp only [stage1Run, Prod.mk.injEq] at h
    exact StageStep.noConfusion h.2
  | cons f rest ih =>
    intro att last tr a' s h
    rcases hE : encodeWithCodecFallback ctx.oracle ctx.preferred ctx.fallback
        (s1Params ctx f) with ⟨trE, resE⟩
    cases resE with
    | error e =>
      rw [stage1Run_fatal_step ctx f rest att last trE e hE] at h
      exact StageStep.noConfusion (Prod.mk.injEq .. ▸ h).2
    | ok p =>
      obtain ⟨c, sz⟩ := p
      rw [stage1Run_ok_step ctx f rest att last trE c sz hE] at h
      by_cases hle : (sz : ℤ) ≤ ctx.target_bytes
      · rw [if_pos hle] at h
        have h2 := (Prod.mk.injEq .. ▸ h).2
        obtain ⟨ha, hs⟩ : att ++ [⟨f, none, c, some ctx.crf, none, ctx.audio_bitrate, sz⟩] = a'
            ∧ sz = s := by
          cases h2
          exact ⟨rfl, rfl⟩
        refine ⟨[⟨f, none, c, some ctx.crf, none, ctx.audio_bitrate, sz⟩],
          ha.symm, by simp, ⟨rest, rfl⟩, hs ▸ hle, ?_⟩
        intro e he
        rcases List.mem_cons.mp he with rfl | he
        · exact ⟨rfl, rfl, rfl, rfl⟩
        · simp at he
      · rw [if_neg hle] at h
        have h2 := (Prod.mk.injEq .. ▸ h).2
        have hpair : stage1Run ctx rest
            (att ++ [⟨f, none, c, some ctx.crf, none, ctx.audio_bitrate, sz⟩]) f
            = ((stage1Run ctx rest
                (att ++ [⟨f, none, c, some ctx.crf, none, ctx.audio_bitrate, sz⟩]) f).1,
               .success a' s) := by
          rw [← h2]
        obtain ⟨delta', hd1, hd2, hd3, hd4, hd5⟩ := ih _ f _ a' s hpair
        obtain ⟨t, ht⟩ := hd3
        refine ⟨⟨f, none, c, some ctx.crf, none, ctx.audio_bitrate, sz⟩ :: delta',
          ?_, by simp, ⟨t, by simpa using ht⟩, hd4, ?_⟩
        · rw [hd1, List.append_assoc]; rfl
        · intro e he
          rcases List.mem_cons.mp he with rfl | he
          · exact ⟨rfl, rfl, rfl, rfl⟩
          · exact hd5 e he

lemma stage2Run_fatal_step (ctx : Ctx) (lf : Option ℚ) (h0 : Option ℤ)
    (rest : List (Option ℤ)) (att : List Attempt) (last : Option ℤ)
    (tr : List EncodeParams) (e : SearchError)
    (h : encodeWithCodecFallback ctx.oracle ctx.preferred ctx.fallback (s2Params ctx lf h0)
      = (tr, .error e)) :
    stage2Run ctx lf (h0 :: rest) att last = (tr, .fatal e) := by
  simp only [stage2Run, h]

lemma stage2Run_exhausted_spec (ctx : Ctx) (lf : Option ℚ) :
    ∀ (cands : List (Option ℤ)) (att : List Attempt) (last : Option ℤ)
      (tr : List EncodeParams) (a' : List Attempt) (l : Option ℤ),
      stage2Run ctx lf cands att last = (tr, .exhausted a' l) →
      ∃ delta, a' = att ++ delta ∧ delta.map Attempt.height = cands ∧
        l = cands.getLastD last ∧
        (∀ e ∈ delta, e.fps = lf ∧ e.crf = some ctx.crf ∧
          e.video_bitrate = none ∧ e.audio_bitrate = ctx.audio_bitrate ∧
          ctx.target_bytes < (e.output_bytes : ℤ)) := by
  intro cands
  induction cands with
  | nil =>
    intro att last tr a' l h
    simp only [stage2Run, Prod.mk.injEq] at h
    obtain ⟨-, h2⟩ := h
    cases h2
    exact ⟨[], by simp⟩
  | cons h0 rest ih =>
    intro att last tr a' l h
    rcases hE : encodeWithCodecFallback ctx.oracle ctx.preferred ctx.fallback
        (s2Params ctx lf h0) with ⟨trE, resE⟩
    cases resE with
    | error e =>
      rw [stage2Run_fatal_step ctx lf h0 rest att last trE e hE] at h
      exact StageStep.noConfusion (Prod.mk.injEq .. ▸ h).2
    | ok p =>
      obtain ⟨c, sz⟩ := p
      rw [stage2Run_ok_step ctx lf h0 rest att last trE c sz hE] at h
      by_cases hle : (sz : ℤ) ≤ ctx.target_bytes
      · rw [if_pos hle] at h
        exact StageStep.noConfusion (Prod.mk.injEq .. ▸ h).2
      · rw [if_neg hle] at h
        have h2 := (Prod.mk.injEq .. ▸ h).2
        have hpair : stage2Run ctx lf rest
            (att ++ [⟨lf, h0, c, some ctx.crf, none, ctx.audio_bitrate, sz⟩]) h0
            = ((stage2Run ctx lf rest
                (att ++ [⟨lf, h0, c, some ctx.crf, none, ctx.audio_bitrate, sz⟩]) h0).1,
               .exhausted a' l) := by
          rw [← h2]
        obtain ⟨delta', hd1, hd2, hd3, hd4⟩ := ih _ h0 _ a' l hpair
        refine ⟨⟨lf, h0, c, some ctx.crf, none, ctx.audio_bitrate, sz⟩ :: delta', ?_, ?_, ?_, ?_⟩
        · rw [hd1, List.append_assoc]; rfl
        · simp [hd2]
        · rw [hd3, List.getLastD_cons]
        · intro e he
          rcases List.mem_cons.mp he with rfl | he
          · exact ⟨rfl, rfl, rfl, rfl, not_le.mp hle⟩
          · exact hd4 e he

lemma stage2Run_success_spec (ctx : Ctx) (lf : Option ℚ) :
    ∀ (cands : List (Option ℤ)) (att : List Attempt) (last : Option ℤ)
      (tr : List EncodeParams) (a' : List Attempt) (s : ℕ),
      stage2Run ctx lf cands att last = (tr, .success a' s) →
      ∃ delta, a' = att ++ delta ∧ delta ≠ [] ∧
        (delta.map Attempt.height).IsPrefix cands ∧
        (s : ℤ) ≤ ctx.target_bytes ∧
        (∀ e ∈ delta, e.fps = lf ∧ e.crf = some ctx.crf ∧
          e.video_bitrate = none ∧ e.audio_bitrate = ctx.audio_bitrate) := by
  intro cands
  induction cands with
  | nil =>
    intro att last tr a' s h
    simp only [stage2Run, Prod.mk.injEq] at h
    exact StageStep.noConfusion h.2
  | cons h0 rest ih =>
    intro att last tr a' s h
    rcases hE : encodeWithCodecFallback ctx.oracle ctx.preferred ctx.fallback
        (s2Params ctx lf h0) with ⟨trE, resE⟩
    cases resE with
    | error e =>
      rw [stage2Run_fatal_step ctx lf h0 rest att last trE e hE] at h
      exact StageStep.noConfusion (Prod.mk.injEq .. ▸ h).2
    | ok p =>
      obtain ⟨c, sz⟩ := p
      rw [stage2Run_ok_step ctx lf h0 rest att last trE c sz hE] at h
      by_cases hle : (sz : ℤ) ≤ ctx.target_bytes
      · rw [if_pos hle] at h
        have h2 := (Prod.mk.injEq .. ▸ h).2
        obtain ⟨ha, hs⟩ : att ++ [⟨lf, h0, c, some ctx.crf, none, ctx.audio_bitrate, sz⟩] = a'
            ∧ sz = s := by
          cases h2
          exact ⟨rfl, rfl⟩
        refine ⟨[⟨lf, h0, c, some ctx.crf, none, ctx.audio_bitrate, sz⟩],
          ha.symm, by simp, ⟨rest, rfl⟩, hs ▸ hle, ?_⟩
        intro e he
        rcases List.mem_cons.mp he with rfl | he
        · exact ⟨rfl, rfl, rfl, rfl⟩
        · simp at he
      · rw [if_neg hle] at h
        have h2 := (Prod.mk.injEq .. ▸ h).2
        have hpair : stage2Run ctx lf rest
            (att ++ [⟨lf, h0, c, some ctx.crf, none, ctx.audio_bitrate, sz⟩]) h0
            = ((stage2Run ctx lf rest
                (att ++ [⟨lf, h0, c, some ctx.crf, none, ctx.audio_bitrate, sz⟩]) h0).1,
               .success a' s) := by
          rw [← h2]
        obtain ⟨delta', hd1, hd2, hd3, hd4, hd5⟩ := ih _ h0 _ a' s hpair
        obtain ⟨t, ht⟩ := hd3
        refine ⟨⟨lf, h0, c, some ctx.crf, none, ctx.audio_bitrate, sz⟩ :: delta',
          ?_, by simp, ⟨t, by simpa using ht⟩, hd4, ?_⟩
        · rw [hd1, List.append_assoc]; rfl
        · intro e he
          rcases List.mem_cons.mp he with rfl | he
          · exact ⟨rfl, rfl, rfl, rfl⟩
          · exact hd5 e he

lemma stage1Run_first_success (ctx : Ctx) :
    ∀ (idx : ℕ) (cands : List (Option ℚ)) (att : List Attempt) (last : Option ℚ)
      (f : Option ℚ) (rest : List (Option ℚ)) (c0 : String) (s0 : ℕ),
      cands.drop idx = f :: rest →
      (∀ g ∈ cands.take idx, ∃ c s,
        (encodeWithCodecFallback ctx.oracle ctx.preferred ctx.fallback (s1Params ctx g)).2
          = .ok (c, s) ∧ ctx.target_bytes < (s : ℤ)) →
      (encodeWithCodecFallback ctx.oracle ctx.preferred ctx.fallback (s1Params ctx f)).2
        = .ok (c0, s0) →
      (s0 : ℤ) ≤ ctx.target_bytes →
      ∃ tr a', stage1Run ctx cands att last = (tr, .success a' s0) ∧
        a'.length = att.length + idx + 1 := by
  intro idx
  induction idx with
  | zero =>
    intro cands att last f rest c0 s0 hdrop hprev hf hle
    rw [List.drop_zero] at hdrop
    subst hdrop
    have hpair : encodeWithCodecFallback ctx.oracle ctx.preferred ctx.fallback
        (s1Params ctx f)
        = ((encodeWithCodecFallback ctx.oracle ctx.preferred ctx.fallback
            (s1Params ctx f)).1, .ok (c0, s0)) := by
      rw [← hf]
    rw [stage1Run_ok_step ctx f rest att last _ c0 s0 hpair, if_pos hle]
    exact ⟨_, _, rfl, by simp⟩
  | succ idx ih =>
    intro cands att last f rest c0 s0 hdrop hprev hf hle
    cases cands with
    | nil => simp at hdrop
    | cons g cands' =>
      rw [List.drop_succ_cons] at hdrop
      obtain ⟨c, s, hok, hgt⟩ := hprev g (by
        rw [List.take_succ_cons]
        exact List.mem_cons_self _ _)
      have hpair : encodeWithCodecFallback ctx.oracle ctx.preferred ctx.fallback
          (s1Params ctx g)
          = ((encodeWithCodecFallback ctx.oracle ctx.preferred ctx.fallback
              (s1Params ctx g)).1, .ok (c, s)) := by
        rw [← hok]
      rw [stage1Run_ok_step ctx g cands' att last _ c s hpair, if_neg (not_le.mpr hgt)]
      obtain ⟨tr', a', heq', hlen'⟩ := ih cands'
        (att ++ [⟨g, none, c, some ctx.crf, none, ctx.audio_bitrate, s⟩]) g
        f rest c0 s0 hdrop
        (fun g' hg' => hprev g' (by
          rw [List.take_succ_cons]
          exact List.mem_cons.mpr (Or.inr hg')))
        hf hle
      rw [heq']
      refine ⟨_, a', rfl, ?_⟩
      rw [hlen']
      simp
      omega

lemma runSearch_exhausted_eq (ctx : Ctx) (fpsC : List (Option ℚ))
    (heightC : List (Option ℤ)) (duration mf : ℚ) (mh ih : ℤ)
    (tr1 tr2 tr3 : List EncodeParams) (a1 a2 : List Attempt)
    (lf : Option ℚ) (lh : Option ℤ) (cu : String) (sz : ℕ)
    (h1 : stage1Run ctx fpsC [] none = (tr1, .exhausted a1 lf))
    (h2 : stage2Run ctx lf (heightC.drop 1) a1 none = (tr2, .exhausted a2 lh))
    (h3 : encodeWithCodecFallback ctx.oracle ctx.preferred ctx.fallback
        (s3Params ctx (stage3Fps lf mf) (stage3Height lh ih mh)
          (stage3VBitrate ctx.target_bytes duration ctx.audio_bitrate))
      = (tr3, .ok (cu, sz))) :
    runSearch ctx fpsC heightC duration mf mh ih =
      (tr1 ++ tr2 ++ tr3,
        .ok ⟨ctx.target_bytes, sz, "fps+scale+bitrate",
          decide ((sz : ℤ) ≤ ctx.target_bytes),
          a2 ++ [⟨some (stage3Fps lf mf), lh, cu, none,
            some (stage3VBitrate ctx.target_bytes duration ctx.audio_bitrate),
            ctx.audio_bitrate, sz⟩]⟩) := by
  simp only [runSearch, h1, h2, h3]

lemma fpsCandidates_decomp (F m : ℚ) :
    ∃ delta, fpsCandidates F m = none :: delta ∧
      delta.Sublist ([(24 : ℚ), 15, 12, m].map some) ∧ delta.Nodup ∧
      (∀ x : ℚ, some x ∈ delta ↔ x ∈ [(24 : ℚ), 15, 12, m] ∧ x < F) ∧
      (∀ o ∈ delta, o.isSome) := by
  obtain ⟨delta, h1, h2, h3, h4, h5⟩ :=
    ladderFold_spec (fun f => f < F) [(24 : ℚ), 15, 12, m] [none]
  have hmem : ∀ x : ℚ, some x ∈ delta ↔ x ∈ [(24 : ℚ), 15, 12, m] ∧ x < F := by
    intro x
    rw [h4 x]
    simp
  have hl1 : [(24 : ℚ), 15, 12, m].foldl (ladderStep (fun f => f < F)) [none]
      = none :: delta := by rw [h1]; rfl
  refine ⟨delta, ?_, h2, h3, hmem, h5⟩
  simp only [fpsCandidates, hl1]
  rw [if_neg]
  rintro ⟨hlt, hnot⟩
  exact hnot (List.mem_cons.mpr (Or.inr ((hmem m).mpr ⟨by simp, hlt⟩)))

lemma fpsCandidates_getLast (F m : ℚ) (hlt : m < F)
    (h24 : m ≠ 24) (h15 : m ≠ 15) (h12 : m ≠ 12) :
    (fpsCandidates F m).getLast? = some (some m) := by
  obtain ⟨delta0, h1, h2, h3, h4, h5⟩ :=
    ladderFold_spec (fun f => f < F) [(24 : ℚ), 15, 12] [none]
  have hsplit : [(24 : ℚ), 15, 12, m] = [(24 : ℚ), 15, 12] ++ [m] := rfl
  have hnot0 : some m ∉ [(none : Option ℚ)] ++ delta0 := by
    intro hmem
    rcases List.mem_append.mp hmem with h | h
    · simp at h
    · have hm3 := ((h4 m).mp h).2.1
      simp only [List.mem_cons, List.not_mem_nil, or_false] at hm3
      rcases hm3 with h | h | h
      · exact h24 h
      · exact h15 h
      · exact h12 h
  have hl1 : [(24 : ℚ), 15, 12, m].foldl (ladderStep (fun f => f < F)) [none]
      = ([(none : Option ℚ)] ++ delta0) ++ [some m] := by
    rw [hsplit, List.foldl_append, h1, List.foldl_cons, List.foldl_nil]
    simp only [ladderStep]
    rw [if_pos ⟨hlt, hnot0⟩]
  simp only [fpsCandidates, hl1]
  rw [if_neg]
  · exact List.getLast?_concat _
  · rintro ⟨_, hnot⟩
    exact hnot (List.mem_append.mpr (Or.inr (by simp)))

lemma heightCandidates_decomp (H mh : ℤ) (hm : 0 < mh) :
    ∃ delta, heightCandidates H mh = none :: delta ∧
      delta.Sublist ([(2160 : ℤ), 1440, 1080, 720, mh].map some) ∧ delta.Nodup ∧
      (∀ x : ℤ, some x ∈ delta ↔
        x ∈ [(2160 : ℤ), 1440, 1080, 720, mh] ∧ x < H ∧ mh ≤ x) ∧
      (∀ o ∈ delta, o.isSome) := by
  obtain ⟨delta, h1, h2, h3, h4, h5⟩ :=
    ladderFold_spec (fun h => H ≠ 0 ∧ h < H ∧ mh ≤ h)
      [(2160 : ℤ), 1440, 1080, 720, mh] [none]
  have hmem : ∀ x : ℤ, some x ∈ delta ↔
      x ∈ [(2160 : ℤ), 1440, 1080, 720, mh] ∧ x < H ∧ mh ≤ x := by
    intro x
    rw [h4 x]
    constructor
    · rintro ⟨-, hmem, -, hx⟩
      exact ⟨hmem, hx⟩
    · rintro ⟨hmem, hx1, hx2⟩
      exact ⟨by simp, hmem, by omega, hx1, hx2⟩
  have hl1 : [(2160 : ℤ), 1440, 1080, 720, mh].foldl
      (ladderStep (fun h => H ≠ 0 ∧ h < H ∧ mh ≤ h)) [none] = none :: delta := by
    rw [h1]; rfl
  refine ⟨delta, ?_, h2, h3, hmem, h5⟩
  simp only [heightCandidates, hl1]
  rw [if_neg]
  rintro ⟨hH, hlt, hnot⟩
  exact hnot (List.mem_cons.mpr (Or.inr ((hmem mh).mpr ⟨by simp, hlt, le_refl _⟩)))

lemma heightCandidates_getLast (H mh : ℤ) (hm : 0 < mh) (hlt : mh < H)
    (h1' : mh ≠ 2160) (h2' : mh ≠ 1440) (h3' : mh ≠ 1080) (h4' : mh ≠ 720) :
    (heightCandidates H mh).getLast? = some (some mh) := by
  obtain ⟨delta0, h1, h2, h3, h4, h5⟩ :=
    ladderFold_spec (fun h => H ≠ 0 ∧ h < H ∧ mh ≤ h)
      [(2160 : ℤ), 1440, 1080, 720] [none]
  have hsplit : [(2160 : ℤ), 1440, 1080, 720, mh]
      = [(2160 : ℤ), 1440, 1080, 720] ++ [mh] := rfl
  have hnot0 : some mh ∉ [(none : Option ℤ)] ++ delta0 := by
    intro hmem
    rcases List.mem_append.mp hmem with h | h
    · simp at h
    · have hm4 := ((h4 mh).mp h).2.1
      simp only [List.mem_cons, List.not_mem_nil, or_false] at hm4
      rcases hm4 with h | h | h | h
      · exact h1' h
      · exact h2' h
      · exact h3' h
      · exact h4' h
  have hH : H ≠ 0 := by omega
  have hl1 : [(2160 : ℤ), 1440, 1080, 720, mh].foldl
      (ladderStep (fun h => H ≠ 0 ∧ h < H ∧ mh ≤ h)) [none]
      = ([(none : Option ℤ)] ++ delta0) ++ [some mh] := by
    rw [hsplit, List.foldl_append, h1, List.foldl_cons, List.foldl_nil]
    simp only [ladderStep]
    rw [if_pos ⟨⟨hH, hlt, le_refl _⟩, hnot0⟩]
  simp only [heightCandidates, hl1]
  rw [if_neg]
  · exact List.getLast?_concat _
  · rintro ⟨_, _, hnot⟩
    exact hnot (List.mem_append.mpr (Or.inr (by simp)))

/-- **C6.** For input frame rate `F` and floor `m > 0`, the frame-rate
candidate list starts with the keep entry (`none`); its tail is a
deduplicated selection from the fixed ladder 24, 15, 12, `m` in that
order; a value appears iff it is in the ladder and strictly below `F`;
`m` appears whenever `m < F`, and as the last candidate when it is not one
of the fixed ladder values. -/
theorem fps_candidates_characterization (F m : ℚ) (hm : 0 < m) :
    (fpsCandidates F m).head? = some none ∧
    (fpsCandidates F m).tail.Sublist ([(24 : ℚ), 15, 12, m].map some) ∧
    (fpsCandidates F m).tail.Nodup ∧
    (∀ x : ℚ, some x ∈ fpsCandidates F m ↔ x ∈ [(24 : ℚ), 15, 12, m] ∧ x < F) ∧
    (m < F → some m ∈ fpsCandidates F m) ∧
    (m < F → m ≠ 24 → m ≠ 15 → m ≠ 12 →
      (fpsCandidates F m).getLast? = some (some m)) := by
  obtain ⟨delta, heq, hsub, hnd, hmem, hsome⟩ := fpsCandidates_decomp F m
  rw [heq]
  refine ⟨rfl, hsub, hnd, ?_, ?_, ?_⟩
  · intro x
    rw [List.mem_cons]
    simp only [reduceCtorEq, false_or]
    exact hmem x
  · intro hlt
    exact List.mem_cons.mpr (Or.inr ((hmem m).mpr ⟨by simp, hlt⟩))
  · intro hlt h24 h15 h12
    rw [← heq]
    exact fpsCandidates_getLast F m hlt h24 h15 h12

/-- **C7.** For input height `H` and floor `mh > 0`, the resolution
candidate list starts with the keep entry; its tail is a deduplicated
selection from the fixed ladder 2160, 1440, 1080, 720, `mh` in that order;
a value appears iff it is in the ladder, strictly below `H` and at least
`mh`; `mh` appears whenever `mh < H` (last when not a fixed ladder value);
and when `H` is unknown (0) the list is exactly the keep entry and the
stage-2 loop performs no attempts. -/
theorem height_candidates_characterization (H mh : ℤ) (hm : 0 < mh) :
    (heightCandidates H mh).head? = some none ∧
    (heightCandidates H mh).tail.Sublist ([(2160 : ℤ), 1440, 1080, 720, mh].map some) ∧
    (heightCandidates H mh).tail.Nodup ∧
    (∀ x : ℤ, some x ∈ heightCandidates H mh ↔
      x ∈ [(2160 : ℤ), 1440, 1080, 720, mh] ∧ x < H ∧ mh ≤ x) ∧
    (mh < H → some mh ∈ heightCandidates H mh) ∧
    (mh < H → mh ≠ 2160 → mh ≠ 1440 → mh ≠ 1080 → mh ≠ 720 →
      (heightCandidates H mh).getLast? = some (some mh)) ∧
    (heightCandidates 0 mh = [none]) ∧
    (∀ (ctx : Ctx) (lf : Option ℚ) (att : List Attempt),
      stage2Run ctx lf ((heightCandidates 0 mh).drop 1) att none
        = ([], .exhausted att none)) := by
  obtain ⟨delta, heq, hsub, hnd, hmem, hsome⟩ := heightCandidates_decomp H mh hm
  have hzero : heightCandidates 0 mh = [none] := by
    obtain ⟨delta0, heq0, _, _, hmem0, hsome0⟩ := heightCandidates_decomp 0 mh hm
    have : delta0 = [] := by
      cases hd : delta0 with
      | nil => rfl
      | cons o t =>
        exfalso
        have ho : o ∈ delta0 := by rw [hd]; exact List.mem_cons_self _ _
        obtain ⟨x, hx⟩ := Option.isSome_iff_exists.mp (hsome0 o ho)
        rw [hx] at ho
        have := (hmem0 x).mp ho
        omega
    rw [heq0, this]
  refine ⟨?_, ?_, ?_, ?_, ?_, ?_, hzero, ?_⟩
  · rw [heq]; rfl
  · rw [heq]; exact hsub
  · rw [heq]; exact hnd
  · intro x
    rw [heq, List.mem_cons]
    simp only [reduceCtorEq, false_or]
    exact hmem x
  · intro hlt
    rw [heq]
    exact List.mem_cons.mpr (Or.inr ((hmem mh).mpr ⟨by simp, hlt, le_refl _⟩))
  · intro hlt ha hb hc hd
    exact heightCandidates_getLast H mh hm hlt ha hb hc hd
  · intro ctx lf att
    rw [hzero]
    rfl

/-- **C2 (amended).** For every byte budget `B > 0`, duration `D` and audio
bitrate string `A`, the bitrate-fallback video bitrate equals
`max(200000, floor(floor(B*8/max(0.1,D)) * 0.95) - parse(A))`: the
implementation truncates the total bits-per-second to an integer *before*
applying the 0.95 headroom factor.  Determinism is immediate:
`computeTargetVideoBps` is a pure function of `B`, `D`, `A`. -/
theorem bitrate_formula (B : ℤ) (D : ℚ) (A : String) (hB : 0 < B) :
    computeTargetVideoBps B D A =
      max 200000 (⌊(⌊(B * 8 : ℚ) / max (1 / 10) D⌋ : ℚ) * (95 / 100)⌋
        - parseAudioBitrate A) := by
  have hpos : (0 : ℚ) < max (1 / 10) D := lt_of_lt_of_le (by norm_num) (le_max_left _ _)
  have hnum : (0 : ℚ) ≤ (B * 8 : ℚ) := by
    have : (0 : ℚ) ≤ (B : ℚ) := by exact_mod_cast hB.le
    linarith
  have h1 : (0 : ℚ) ≤ (B * 8 : ℚ) / max (1 / 10) D := div_nonneg hnum hpos.le
  have h2 : (0 : ℚ) ≤ (⌊(B * 8 : ℚ) / max (1 / 10) D⌋ : ℚ) * (95 / 100) := by
    have : (0 : ℤ) ≤ ⌊(B * 8 : ℚ) / max (1 / 10) D⌋ := Int.floor_nonneg.mpr h1
    have h' : (0 : ℚ) ≤ (⌊(B * 8 : ℚ) / max (1 / 10) D⌋ : ℚ) := by exact_mod_cast this
    linarith
  unfold computeTargetVideoBps computeTotalBps pytruncQ
  rw [if_pos h1, if_pos h2]

/-- Witness for `bitrate_formula` at `B = 800`, `D = 10`, `A = "128k"`. -/
theorem bitrate_formula_witness :
    (0 : ℤ) < 800 ∧
    computeTargetVideoBps 800 10 "128k" =
      max 200000 (⌊(⌊(800 * 8 : ℚ) / max (1 / 10) 10⌋ : ℚ) * (95 / 100)⌋
        - parseAudioBitrate "128k") :=
  ⟨by norm_num, bitrate_formula 800 10 "128k" (by norm_num)⟩

/-- **C2 (counterexample).** At `B = 2105411`, `D = 80`, `A = "0"` the code
computes 200013 while the claimed single-floor formula
`max(200000, floor(B*8/max(0.1,D)*0.95) - parse(A))` gives 200014. -/
theorem bitrate_formula_counterexample :
    computeTargetVideoBps 2105411 80 "0" ≠
      max 200000 (⌊((2105411 * 8 : ℚ) / max (1 / 10) 80) * (95 / 100)⌋
        - parseAudioBitrate "0") := by
  have hparse : parseAudioBitrate "0" = 0 := by decide
  have hmax : max (1 / 10 : ℚ) 80 = 80 := by
    rw [max_eq_right]
    norm_num
  have hlhs : computeTargetVideoBps 2105411 80 "0" = 200013 := by
    unfold computeTargetVideoBps computeTotalBps pytruncQ
    rw [hparse, hmax]
    rw [if_pos (by norm_num : (0 : ℚ) ≤ ((2105411 : ℤ) * 8 : ℚ) / 80)]
    have h1 : (⌊((2105411 : ℤ) * 8 : ℚ) / 80⌋ : ℤ) = 210541 := by
      norm_num
    rw [h1]
    rw [if_pos (by norm_num : (0 : ℚ) ≤ ((210541 : ℤ) : ℚ) * (95 / 100))]
    have h2 : (⌊((210541 : ℤ) : ℚ) * (95 / 100)⌋ : ℤ) = 200013 := by
      norm_num
    rw [h2]
    omega
  have hrhs : max 200000 (⌊((2105411 * 8 : ℚ) / max (1 / 10) 80) * (95 / 100)⌋
      - parseAudioBitrate "0") = 200014 := by
    rw [hparse, hmax]
    have h3 : (⌊((2105411 * 8 : ℚ) / 80) * (95 / 100)⌋ : ℤ) = 200014 := by
      norm_num
    rw [h3]
    omega
  rw [hlhs, hrhs]
  decide

/-- **C10.** The bitrate string handed to the encoder in the fallback stage
is the computed video bitrate truncated down to whole kilobits with a `k`
suffix; the computed value is always at least 200000, the requested
kilobit figure at least 200, and the truncation loses at most 999 bits
per second. -/
theorem stage3_bitrate_string (B : ℤ) (D : ℚ) (A : String) :
    stage3VBitrate B D A =
      toString ⌊(computeTargetVideoBps B D A : ℚ) / 1000⌋ ++ "k" ∧
    200000 ≤ computeTargetVideoBps B D A ∧
    200 ≤ ⌊(computeTargetVideoBps B D A : ℚ) / 1000⌋ ∧
    0 ≤ computeTargetVideoBps B D A - 1000 * ⌊(computeTargetVideoBps B D A : ℚ) / 1000⌋ ∧
    computeTargetVideoBps B D A - 1000 * ⌊(computeTargetVideoBps B D A : ℚ) / 1000⌋ ≤ 999 := by
  set v : ℤ := computeTargetVideoBps B D A with hv
  have hv200 : 200000 ≤ v := le_max_left _ _
  have hv0 : (0 : ℚ) ≤ (v : ℚ) / 1000 := by
    have : (0 : ℚ) ≤ (v : ℚ) := by exact_mod_cast (by omega : (0 : ℤ) ≤ v)
    positivity
  have hfl_le : ((1000 : ℤ) * ⌊(v : ℚ) / 1000⌋ : ℤ) ≤ v := by
    have h := Int.floor_le ((v : ℚ) / 1000)
    have h' : (⌊(v : ℚ) / 1000⌋ : ℚ) * 1000 ≤ (v : ℚ) :=
      (le_div_iff (by norm_num : (0 : ℚ) < 1000)).mp h
    have h'' : ((1000 * ⌊(v : ℚ) / 1000⌋ : ℤ) : ℚ) ≤ ((v : ℤ) : ℚ) := by
      push_cast
      linarith
    exact_mod_cast h''
  have hfl_gt : (v : ℤ) < 1000 * ⌊(v : ℚ) / 1000⌋ + 1000 := by
    have h := Int.lt_floor_add_one ((v : ℚ) / 1000)
    have h' : (v : ℚ) < ((⌊(v : ℚ) / 1000⌋ : ℚ) + 1) * 1000 :=
      (div_lt_iff (by norm_num : (0 : ℚ) < 1000)).mp h
    have h'' : ((v : ℤ) : ℚ) < ((1000 * ⌊(v : ℚ) / 1000⌋ + 1000 : ℤ) : ℚ) := by
      push_cast
      linarith
    exact_mod_cast h''
  refine ⟨?_, hv200, ?_, by omega, by omega⟩
  · unfold stage3VBitrate pytruncQ
    rw [← hv, if_pos hv0]
  · rw [Int.le_floor]
    rw [le_div_iff (by norm_num : (0 : ℚ) < 1000)]
    have : ((200 * 1000 : ℤ) : ℚ) ≤ ((v : ℤ) : ℚ) := by exact_mod_cast (by omega : (200000 : ℤ) ≤ v)
    push_cast at this ⊢
    linarith

lemma resolveTargetBytes_error_config (cfg : Config) (e : SearchError)
    (h : resolveTargetBytes cfg = .error e) : ∃ m, e = .configError m := by
  unfold resolveTargetBytes at h
  split at h
  · exact ⟨_, (Except.error.inj h).symm⟩
  · split at h
    · split at h
      · exact ⟨_, (Except.error.inj h).symm⟩
      · split at h
        · exact ⟨_, (Except.error.inj h).symm⟩
        · exact Except.noConfusion h
    · split at h
      · exact ⟨_, (Except.error.inj h).symm⟩
      · exact Except.noConfusion h

lemma resolveTargetBytes_pos (cfg : Config) (tb : ℤ)
    (h : resolveTargetBytes cfg = .ok tb) : 0 < tb := by
  unfold resolveTargetBytes at h
  split at h
  · exact Except.noConfusion h
  · split at h
    · split at h
      · exact Except.noConfusion h
      · split at h
        · exact Except.noConfusion h
        · cases h
          omega
    · split at h
      · exact Except.noConfusion h
      · cases h
        omega

/-- **C9.** Whenever both or neither of the two target-size options are
supplied, or a non-positive `min_fps`, `min_height` or `timeout_s` is
configured, `adaptive_compress_video` fails with a configuration error
before any probe or encode call: the result is the same error for every
probe result and every encoder, and the encoder-invocation trace is
empty. -/
theorem config_validation_before_probe (cfg : Config)
    (h : cfg.target_bytes?.isNone = cfg.target_mb?.isNone ∨ cfg.min_fps ≤ 0 ∨
      cfg.min_height ≤ 0 ∨ cfg.timeout_s ≤ 0) :
    ∃ msg, ∀ (p : ProbeResult) (oracle : Oracle),
      fullRun cfg p oracle = ([], .error (.configError msg)) := by
  have hval : ∃ msg, validate cfg = .error (.configError msg) := by
    cases hres : resolveTargetBytes cfg with
    | error e =>
      obtain ⟨m, rfl⟩ := resolveTargetBytes_error_config cfg e hres
      exact ⟨m, by unfold validate; rw [hres]⟩
    | ok tb =>
      rcases h with h | h | h | h
      · exfalso
        unfold resolveTargetBytes at hres
        rw [if_pos h] at hres
        exact Except.noConfusion hres
      · exact ⟨_, by unfold validate; rw [hres]; dsimp only; rw [if_pos h]⟩
      · by_cases hf : cfg.min_fps ≤ 0
        · exact ⟨_, by unfold validate; rw [hres]; dsimp only; rw [if_pos hf]⟩
        · exact ⟨_, by unfold validate; rw [hres]; dsimp only; rw [if_neg hf, if_pos h]⟩
      · by_cases hf : cfg.min_fps ≤ 0
        · exact ⟨_, by unfold validate; rw [hres]; dsimp only; rw [if_pos hf]⟩
        · by_cases hh : cfg.min_height ≤ 0
          · exact ⟨_, by unfold validate; rw [hres]; dsimp only; rw [if_neg hf, if_pos hh]⟩
          · exact ⟨_, by unfold validate; rw [hres]; dsimp only; rw [if_neg hf, if_neg hh, if_pos h]⟩
  obtain ⟨msg, hmsg⟩ := hval
  refine ⟨msg, fun p oracle => ?_⟩
  unfold fullRun
  rw [hmsg]

/-- Witness for `config_validation_before_probe`: both `target_bytes` and
`target_mb` supplied. -/
theorem config_validation_before_probe_witness :
    ∃ msg, fullRun ⟨some 5, some 1, "auto", 28, "128k", 8, 480, 30⟩
        ⟨true, some 10, some 30, some 1080⟩ (fun _ => .ok 0)
      = ([], .error (.configError msg)) := by
  obtain ⟨msg, h⟩ := config_validation_before_probe
    ⟨some 5, some 1, "auto", 28, "128k", 8, 480, 30⟩ (Or.inl rfl)
  exact ⟨msg, h _ _⟩

/-- **C1 (amended).** With codec preference `auto`, *any* failure of the
preferred-codec encode — encoder unavailable, timeout, or generic encode
failure, which all surface as the same `ValueError` — triggers exactly one
retry with the fallback codec on the identical parameter set, and the
attempt's result is the fallback encode's own result (so a fallback
failure is fatal); an attempt whose final result is an error aborts the
stage immediately without trying further candidates. -/
theorem codec_fallback_retry_rule (oracle : Oracle) (pref fb : String) (p : AParams)
    (hrc : truthyOpt p.videoBitrate = true ∨ p.crf ≠ none)
    (hfail : ∀ n, oracle (mkParams pref p) ≠ .ok n) :
    encodeWithCodecFallback oracle pref (some fb) p =
      ([mkParams pref p, mkParams fb p],
        match oracle (mkParams fb p) with
        | .ok s => .ok (fb, s)
        | .timeout => .error (.encodeError "ffmpeg execution timeout")
        | .failed m => .error (.encodeError ("ffmpeg execution failed: " ++ m))) ∧
    (∀ (ctx : Ctx) (f : Option ℚ) (rest : List (Option ℚ)) (att : List Attempt)
        (last : Option ℚ) (tr : List EncodeParams) (e : SearchError),
      encodeWithCodecFallback ctx.oracle ctx.preferred ctx.fallback (s1Params ctx f)
        = (tr, .error e) →
      stage1Run ctx (f :: rest) att last = (tr, .fatal e)) :=
  ⟨encodeWithCodecFallback_pref_fail oracle pref fb p hrc hfail,
   fun ctx f rest att last tr e h => stage1Run_fatal_step ctx f rest att last tr e h⟩

/-- Witness for `codec_fallback_retry_rule`: a preferred-codec timeout
followed by a fallback timeout. -/
theorem codec_fallback_retry_rule_witness :
    encodeWithCodecFallback (fun _ => .timeout) "libx265" "libx264"
        ⟨none, none, some 28, none, "128k"⟩ =
      ([⟨"libx265", none, none, some 28, none, "128k"⟩,
        ⟨"libx264", none, none, some 28, none, "128k"⟩],
        .error (.encodeError "ffmpeg execution timeout")) :=
  (codec_fallback_retry_rule (fun _ => .timeout) "libx265" "libx264"
    ⟨none, none, some 28, none, "128k"⟩ (Or.inr (by decide))
    (fun n h => EncodeResult.noConfusion h)).1

unseal Rat.mul Rat.inv Rat.add Rat.sub in
/-- **C1 (counterexample to the claim as stated).** With codec preference
`auto`, a *timeout* of the preferred codec on the very first attempt does
not abort the search: the code catches the `ValueError` and retries with
the fallback codec, and here the whole search then succeeds with strategy
`fps` — contradicting the claim that only an encoder-unavailable condition
triggers the fallback and that a timeout is immediately fatal. -/
theorem codec_fallback_counterexample :
    fullRun ⟨some 1000, none, "auto", 28, "128k", 8, 480, 30⟩
        ⟨true, some 10, some 30, some 1080⟩
        (fun q => if q.codec = "libx264" then .ok 100 else .timeout) =
      ([⟨"libx265", none, none, some 28, none, "128k"⟩,
        ⟨"libx264", none, none, some 28, none, "128k"⟩],
        .ok ⟨1000, 100, "fps", true,
          [⟨none, none, "libx264", some 28, none, "128k", 100⟩]⟩) := by
  rfl

/-- **C3.** When stage 1 and stage 2 both exhaust their candidates without
meeting the budget (every logged attempt exceeds it), exactly one
bitrate-targeted attempt is performed and appended to the log, its output
becomes the final result regardless of whether it meets the budget, the
strategy is `"fps+scale+bitrate"`, success is `size ≤ budget`, and the
attempt log is non-empty. -/
theorem bitrate_fallback_always_final (ctx : Ctx) (fpsC : List (Option ℚ))
    (heightC : List (Option ℤ)) (duration mf : ℚ) (mh inH : ℤ)
    (tr1 tr2 tr3 : List EncodeParams) (a1 a2 : List Attempt)
    (lf : Option ℚ) (lh : Option ℤ) (cu : String) (sz : ℕ)
    (h1 : stage1Run ctx fpsC [] none = (tr1, .exhausted a1 lf))
    (h2 : stage2Run ctx lf (heightC.drop 1) a1 none = (tr2, .exhausted a2 lh))
    (h3 : encodeWithCodecFallback ctx.oracle ctx.preferred ctx.fallback
        (s3Params ctx (stage3Fps lf mf) (stage3Height lh inH mh)
          (stage3VBitrate ctx.target_bytes duration ctx.audio_bitrate))
      = (tr3, .ok (cu, sz))) :
    runSearch ctx fpsC heightC duration mf mh inH =
      (tr1 ++ tr2 ++ tr3,
        .ok ⟨ctx.target_bytes, sz, "fps+scale+bitrate",
          decide ((sz : ℤ) ≤ ctx.target_bytes),
          a2 ++ [⟨some (stage3Fps lf mf), lh, cu, none,
            some (stage3VBitrate ctx.target_bytes duration ctx.audio_bitrate),
            ctx.audio_bitrate, sz⟩]⟩) ∧
    a2 ++ [⟨some (stage3Fps lf mf), lh, cu, none,
      some (stage3VBitrate ctx.target_bytes duration ctx.audio_bitrate),
      ctx.audio_bitrate, sz⟩] ≠ [] ∧
    (∀ a ∈ a2, a.video_bitrate = none ∧ ctx.target_bytes < (a.output_bytes : ℤ)) := by
  refine ⟨runSearch_exhausted_eq ctx fpsC heightC duration mf mh inH
    tr1 tr2 tr3 a1 a2 lf lh cu sz h1 h2 h3, by simp, ?_⟩
  obtain ⟨d1, hd1a, -, -, hd1f⟩ :=
    stage1Run_exhausted_spec ctx fpsC [] none tr1 a1 lf h1
  obtain ⟨d2, hd2a, -, -, hd2f⟩ :=
    stage2Run_exhausted_spec ctx lf (heightC.drop 1) a1 none tr2 a2 lh h2
  rw [List.nil_append] at hd1a
  intro a ha
  rw [hd2a] at ha
  rcases List.mem_append.mp ha with ha | ha
  · rw [hd1a] at ha
    obtain ⟨-, -, hvb, -, hgt⟩ := hd1f a ha
    exact ⟨hvb, hgt⟩
  · obtain ⟨-, -, hvb, -, hgt⟩ := hd2f a ha
    exact ⟨hvb, hgt⟩

unseal Rat.mul Rat.inv Rat.add Rat.sub in
/-- Witness for `bitrate_fallback_always_final`: a 1-byte budget that no
attempt can meet; the bitrate attempt still becomes the final output with
success `false`. -/
theorem bitrate_fallback_always_final_witness :
    runSearch ⟨(fun _ => .ok 1000), "libx265", some "libx264", 28, "128k", 1⟩
        [none] [none] 10 8 480 0 =
      ([⟨"libx265", none, none, some 28, none, "128k"⟩,
        ⟨"libx265", some 8, none, none, some "200k", "128k"⟩],
        .ok ⟨1, 1000, "fps+scale+bitrate", false,
          [⟨none, none, "libx265", some 28, none, "128k", 1000⟩,
           ⟨some 8, none, "libx265", none, some "200k", "128k", 1000⟩]⟩) ∧
    ([⟨none, none, "libx265", some 28, none, "128k", 1000⟩,
      ⟨some 8, none, "libx265", none, some "200k", "128k", 1000⟩] : List Attempt) ≠ [] := by
  have h := bitrate_fallback_always_final
    ⟨(fun _ => .ok 1000), "libx265", some "libx264", 28, "128k", 1⟩
    [none] [none] 10 8 480 0
    [⟨"libx265", none, none, some 28, none, "128k"⟩] []
    [⟨"libx265", some 8, none, none, some "200k", "128k"⟩]
    [⟨none, none, "libx265", some 28, none, "128k", 1000⟩]
    [⟨none, none, "libx265", some 28, none, "128k", 1000⟩]
    none none "libx265" 1000 (by rfl) (by rfl) (by rfl)
  exact ⟨h.1, h.2.1⟩

/-- **C4.** If the `i`-th frame-rate candidate (1-based) is the first whose
encoded size fits the budget, the search stops there: the result has
strategy `"fps"`, success `true`, the final byte count is that attempt's
size, and the attempt log has length exactly `i`. -/
theorem stage1_first_success_outcome (ctx : Ctx) (fpsC : List (Option ℚ))
    (heightC : List (Option ℤ)) (duration mf : ℚ) (mh inH : ℤ)
    (idx : ℕ) (f : Option ℚ) (rest : List (Option ℚ)) (c0 : String) (s0 : ℕ)
    (hdrop : fpsC.drop idx = f :: rest)
    (hprev : ∀ g ∈ fpsC.take idx, ∃ c s,
      (encodeWithCodecFallback ctx.oracle ctx.preferred ctx.fallback (s1Params ctx g)).2
        = .ok (c, s) ∧ ctx.target_bytes < (s : ℤ))
    (hf : (encodeWithCodecFallback ctx.oracle ctx.preferred ctx.fallback (s1Params ctx f)).2
      = .ok (c0, s0))
    (hle : (s0 : ℤ) ≤ ctx.target_bytes) :
    ∃ tr attempts, runSearch ctx fpsC heightC duration mf mh inH =
      (tr, .ok ⟨ctx.target_bytes, s0, "fps", true, attempts⟩) ∧
      attempts.length = idx + 1 := by
  obtain ⟨tr, a', hrun, hlen⟩ :=
    stage1Run_first_success ctx idx fpsC [] none f rest c0 s0 hdrop hprev hf hle
  refine ⟨tr, a', ?_, by simpa using hlen⟩
  simp only [runSearch, hrun]

unseal Rat.mul Rat.inv Rat.add Rat.sub in
/-- Witness for `stage1_first_success_outcome`: the 2nd candidate (fps 24)
is the first to fit. -/
theorem stage1_first_success_outcome_witness :
    ∃ tr attempts,
      runSearch ⟨(fun q => if q.fps = some 24 then .ok 50 else .ok 5000),
          "libx265", some "libx264", 28, "128k", 100⟩
        (fpsCandidates 30 8) (heightCandidates 1080 480) 10 8 480 1080 =
        (tr, .ok ⟨100, 50, "fps", true, attempts⟩) ∧
      attempts.length = 2 := by
  have h := stage1_first_success_outcome
    ⟨(fun q => if q.fps = some 24 then .ok 50 else .ok 5000),
      "libx265", some "libx264", 28, "128k", 100⟩
    (fpsCandidates 30 8) (heightCandidates 1080 480) 10 8 480 1080
    1 (some 24) [some 15, some 12, some 8] "libx265" 50
    (by rfl)
    (fun g hg => by
      have hg' : g = none := by
        have : fpsCandidates 30 8 = [none, some 24, some 15, some 12, some 8] := by rfl
        rw [this] at hg
        simpa using hg
      subst hg'
      exact ⟨"libx265", 5000, by rfl, by decide⟩)
    (by rfl) (by decide)
  exact h

lemma encodeWithCodecFallback_ok_fallback (oracle : Oracle) (pref fb : String)
    (p : AParams) (tr : List EncodeParams) (c : String) (s : ℕ)
    (h : encodeWithCodecFallback oracle pref (some fb) p = (tr, .ok (c, s)))
    (hfail : ∀ n, oracle (mkParams pref p) ≠ .ok n) :
    c = fb ∧ tr = [mkParams pref p, mkParams fb p] ∧
      oracle (mkParams fb p) = .ok s := by
  by_cases hrc : truthyOpt p.videoBitrate = false ∧ p.crf = none
  · have h1 : ∀ cd, encodeOnce oracle (mkParams cd p)
        = ([], .error (.encodeError "crf must be provided when video_bitrate is not set")) := by
      intro cd
      unfold encodeOnce
      dsimp only [mkParams]
      rw [if_pos hrc]
    unfold encodeWithCodecFallback at h
    rw [h1 pref] at h
    dsimp only at h
    rw [h1 fb] at h
    exact Except.noConfusion (Prod.mk.injEq .. ▸ h).2
  · have hrc' : truthyOpt p.videoBitrate = true ∨ p.crf ≠ none := by
      rcases Bool.eq_false_or_eq_true (truthyOpt p.videoBitrate) with hb | hb
      · left
        exact hb
      · right
        intro hcrf
        exact hrc ⟨hb, hcrf⟩
    rw [encodeWithCodecFallback_pref_fail oracle pref fb p hrc' hfail] at h
    cases hq : oracle (mkParams fb p) with
    | ok s' =>
      rw [hq] at h
      obtain ⟨htr, hok⟩ := Prod.mk.injEq .. ▸ h
      obtain ⟨hc, hs⟩ := Prod.mk.injEq .. ▸ Except.ok.inj hok
      exact ⟨hc.symm, htr.symm, by rw [hs]⟩
    | timeout =>
      rw [hq] at h
      exact Except.noConfusion (Prod.mk.injEq .. ▸ h).2
    | failed m =>
      rw [hq] at h
      exact Except.noConfusion (Prod.mk.injEq .. ▸ h).2

/-- **C5.** The attempt log is faithful: each stage appends exactly one
entry per candidate processed, in candidate order, never dropping or
reordering earlier entries (on exhaustion the appended entries'
fps/height fields are exactly the candidate list; on success they are a
non-empty prefix of it); when a codec fallback occurred inside a
successful attempt, the returned codec — the one the logged entry
records — is the fallback codec, exactly two underlying encode calls were
made (preferred first, fallback second), and the recorded size is the
fallback encode's; each attempt is logged with the codec the fallback
helper actually used. -/
theorem attempt_log_faithful :
    (∀ (ctx : Ctx) (cands : List (Option ℚ)) (att : List Attempt) (last : Option ℚ)
        (tr : List EncodeParams) (a' : List Attempt) (l : Option ℚ),
      stage1Run ctx cands att last = (tr, .exhausted a' l) →
      ∃ delta, a' = att ++ delta ∧ delta.map Attempt.fps = cands) ∧
    (∀ (ctx : Ctx) (cands : List (Option ℚ)) (att : List Attempt) (last : Option ℚ)
        (tr : List EncodeParams) (a' : List Attempt) (s : ℕ),
      stage1Run ctx cands att last = (tr, .success a' s) →
      ∃ delta, a' = att ++ delta ∧ delta ≠ [] ∧
        (delta.map Attempt.fps).IsPrefix cands) ∧
    (∀ (ctx : Ctx) (lf : Option ℚ) (cands : List (Option ℤ)) (att : List Attempt)
        (last : Option ℤ) (tr : List EncodeParams) (a' : List Attempt) (l : Option ℤ),
      stage2Run ctx lf cands att last = (tr, .exhausted a' l) →
      ∃ delta, a' = att ++ delta ∧ delta.map Attempt.height = cands ∧
        ∀ e ∈ delta, e.fps = lf) ∧
    (∀ (ctx : Ctx) (lf : Option ℚ) (cands : List (Option ℤ)) (att : List Attempt)
        (last : Option ℤ) (tr : List EncodeParams) (a' : List Attempt) (s : ℕ),
      stage2Run ctx lf cands att last = (tr, .success a' s) →
      ∃ delta, a' = att ++ delta ∧ delta ≠ [] ∧
        (delta.map Attempt.height).IsPrefix cands) ∧
    (∀ (oracle : Oracle) (pref fb : String) (p : AParams) (tr : List EncodeParams)
        (c : String) (s : ℕ),
      encodeWithCodecFallback oracle pref (some fb) p = (tr, .ok (c, s)) →
      (∀ n, oracle (mkParams pref p) ≠ .ok n) →
      c = fb ∧ tr = [mkParams pref p, mkParams fb p] ∧
        oracle (mkParams fb p) = .ok s) ∧
    (∀ (ctx : Ctx) (f : Option ℚ) (rest : List (Option ℚ)) (att : List Attempt)
        (last : Option ℚ) (tr : List EncodeParams) (c : String) (s : ℕ),
      encodeWithCodecFallback ctx.oracle ctx.preferred ctx.fallback (s1Params ctx f)
        = (tr, .ok (c, s)) →
      stage1Run ctx (f :: rest) att last =
        (if (s : ℤ) ≤ ctx.target_bytes then
          (tr, .success (att ++ [⟨f, none, c, some ctx.crf, none, ctx.audio_bitrate, s⟩]) s)
        else
          (tr ++ (stage1Run ctx rest
            (att ++ [⟨f, none, c, some ctx.crf, none, ctx.audio_bitrate, s⟩]) f).1,
           (stage1Run ctx rest
            (att ++ [⟨f, none, c, some ctx.crf, none, ctx.audio_bitrate, s⟩]) f).2))) := by
  refine ⟨?_, ?_, ?_, ?_, ?_, ?_⟩
  · intro ctx cands att last tr a' l h
    obtain ⟨delta, h1, h2, -, -⟩ := stage1Run_exhausted_spec ctx cands att last tr a' l h
    exact ⟨delta, h1, h2⟩
  · intro ctx cands att last tr a' s h
    obtain ⟨delta, h1, h2, h3, -, -⟩ := stage1Run_success_spec ctx cands att last tr a' s h
    exact ⟨delta, h1, h2, h3⟩
  · intro ctx lf cands att last tr a' l h
    obtain ⟨delta, h1, h2, -, h4⟩ := stage2Run_exhausted_spec ctx lf cands att last tr a' l h
    exact ⟨delta, h1, h2, fun e he => (h4 e he).1⟩
  · intro ctx lf cands att last tr a' s h
    obtain ⟨delta, h1, h2, h3, -, -⟩ := stage2Run_success_spec ctx lf cands att last tr a' s h
    exact ⟨delta, h1, h2, h3⟩
  · exact encodeWithCodecFallback_ok_fallback
  · exact fun ctx f rest att last tr c s h =>
      stage1Run_ok_step ctx f rest att last tr c s
        (by rw [← h])

/-- Witness for `attempt_log_faithful`: an exhausted one-candidate stage-1
log, and a fallback-codec attempt after the preferred codec times out. -/
theorem attempt_log_faithful_witness :
    (∃ delta, ([⟨none, none, "libx265", some 28, none, "128k", 1000⟩] : List Attempt)
      = [] ++ delta ∧ delta.map Attempt.fps = [none]) ∧
    ("libx264" = "libx264" ∧
      ([⟨"libx265", none, none, some 28, none, "128k"⟩,
        ⟨"libx264", none, none, some 28, none, "128k"⟩] : List EncodeParams)
        = [mkParams "libx265" ⟨none, none, some 28, none, "128k"⟩,
           mkParams "libx264" ⟨none, none, some 28, none, "128k"⟩] ∧
      (fun (q : EncodeParams) => if q.codec = "libx264" then EncodeResult.ok 7 else .timeout)
        (mkParams "libx264" ⟨none, none, some 28, none, "128k"⟩) = .ok 7) := by
  constructor
  · exact attempt_log_faithful.1
      ⟨fun _ => .ok 1000, "libx265", some "libx264", 28, "128k", 1⟩
      [none] [] none _ _ none (by rfl)
  · exact attempt_log_faithful.2.2.2.2.1
      (fun q => if q.codec = "libx264" then EncodeResult.ok 7 else .timeout)
      "libx265" "libx264" ⟨none, none, some 28, none, "128k"⟩
      _ "libx264" 7 (by rfl) (fun n h => by simp [mkParams] at h)

/-- **C8.** When the bitrate fallback stage runs, its encode uses frame
rate `last_fps` — the last stage-1 candidate tried, i.e. `min_fps` when
only the keep candidate existed — and height `last_height` — the last
stage-2 candidate tried, or `min_height` when the input height exceeds it
and no resolution attempt ran, otherwise keep — with bitrate rate control
and no CRF; CRF and bitrate are mutually exclusive in every logged
attempt. -/
theorem stage3_parameters (ctx : Ctx) (fpsC : List (Option ℚ))
    (heightC : List (Option ℤ)) (duration mf : ℚ) (mh inH : ℤ)
    (tr1 tr2 tr3 : List EncodeParams) (a1 a2 : List Attempt)
    (lf : Option ℚ) (lh : Option ℤ) (cu : String) (sz : ℕ)
    (h1 : stage1Run ctx fpsC [] none = (tr1, .exhausted a1 lf))
    (h2 : stage2Run ctx lf (heightC.drop 1) a1 none = (tr2, .exhausted a2 lh))
    (h3 : encodeWithCodecFallback ctx.oracle ctx.preferred ctx.fallback
        (s3Params ctx (stage3Fps lf mf) (stage3Height lh inH mh)
          (stage3VBitrate ctx.target_bytes duration ctx.audio_bitrate))
      = (tr3, .ok (cu, sz))) :
    lf = fpsC.getLastD none ∧
    lh = (heightC.drop 1).getLastD none ∧
    stage3Fps lf mf = lf.getD mf ∧
    (∀ hgt, lh = some hgt → stage3Height lh inH mh = some hgt) ∧
    (lh = none → stage3Height lh inH mh
      = if inH ≠ 0 ∧ mh < inH then some mh else none) ∧
    (s3Params ctx (stage3Fps lf mf) (stage3Height lh inH mh)
      (stage3VBitrate ctx.target_bytes duration ctx.audio_bitrate)).crf = none ∧
    (s3Params ctx (stage3Fps lf mf) (stage3Height lh inH mh)
        (stage3VBitrate ctx.target_bytes duration ctx.audio_bitrate)).videoBitrate
      = some (stage3VBitrate ctx.target_bytes duration ctx.audio_bitrate) ∧
    ∃ out, runSearch ctx fpsC heightC duration mf mh inH
        = (tr1 ++ tr2 ++ tr3, .ok out) ∧
      ∀ a ∈ out.attempts, a.crf.isSome = !a.video_bitrate.isSome := by
  obtain ⟨d1, hd1a, -, hd1l, hd1f⟩ :=
    stage1Run_exhausted_spec ctx fpsC [] none tr1 a1 lf h1
  obtain ⟨d2, hd2a, -, hd2l, hd2f⟩ :=
    stage2Run_exhausted_spec ctx lf (heightC.drop 1) a1 none tr2 a2 lh h2
  rw [List.nil_append] at hd1a
  refine ⟨hd1l, hd2l, rfl, ?_, ?_, rfl, rfl, ?_⟩
  · intro hgt hlh
    rw [hlh]
    rfl
  · intro hlh
    rw [hlh]
    rfl
  · refine ⟨_, runSearch_exhausted_eq ctx fpsC heightC duration mf mh inH
      tr1 tr2 tr3 a1 a2 lf lh cu sz h1 h2 h3, ?_⟩
    intro a ha
    rcases List.mem_append.mp ha with ha | ha
    · rw [hd2a] at ha
      rcases List.mem_append.mp ha with ha | ha
      · rw [hd1a] at ha
        obtain ⟨-, hcrf, hvb, -, -⟩ := hd1f a ha
        rw [hcrf, hvb]
        rfl
      · obtain ⟨-, hcrf, hvb, -, -⟩ := hd2f a ha
        rw [hcrf, hvb]
        rfl
    · have : a = ⟨some (stage3Fps lf mf), lh, cu, none,
          some (stage3VBitrate ctx.target_bytes duration ctx.audio_bitrate),
          ctx.audio_bitrate, sz⟩ := by
        simpa using ha
      rw [this]
      rfl

unseal Rat.mul Rat.inv Rat.add Rat.sub in
/-- Witness for `stage3_parameters`: a degenerate run (unknown height,
single keep fps candidate) whose bitrate stage uses `min_fps` and keep
height. -/
theorem stage3_parameters_witness :
    ((none : Option ℚ) = ([none] : List (Option ℚ)).getLastD none) ∧
    ∃ out, runSearch ⟨(fun _ => .ok 500), "libx265", some "libx264", 28, "128k", 2⟩
        [none] [none] 10 8 480 0
        = ([⟨"libx265", none, none, some 28, none, "128k"⟩] ++ []
            ++ [⟨"libx265", some 8, none, none, some "200k", "128k"⟩], .ok out) ∧
      ∀ a ∈ out.attempts, a.crf.isSome = !a.video_bitrate.isSome := by
  have h := stage3_parameters
    ⟨(fun _ => .ok 500), "libx265", some "libx264", 28, "128k", 2⟩
    [none] [none] 10 8 480 0
    [⟨"libx265", none, none, some 28, none, "128k"⟩] []
    [⟨"libx265", some 8, none, none, some "200k", "128k"⟩]
    [⟨none, none, "libx265", some 28, none, "128k", 500⟩]
    [⟨none, none, "libx265", some 28, none, "128k", 500⟩]
    none none "libx265" 500 (by rfl) (by rfl) (by rfl)
  exact ⟨h.1, h.2.2.2.2.2.2.2⟩

/-- Witness for `fps_candidates_characterization` at `F = 30`, `m = 8`. -/
theorem fps_candidates_characterization_witness :
    (fpsCandidates 30 8).head? = some none ∧ some (8 : ℚ) ∈ fpsCandidates 30 8 := by
  have h := fps_candidates_characterization 30 8 (by norm_num)
  exact ⟨h.1, h.2.2.2.2.1 (by norm_num)⟩

/-- Witness for `height_candidates_characterization` at `H = 1080`,
`mh = 480`, plus the unknown-height edge case. -/
theorem height_candidates_characterization_witness :
    (heightCandidates 1080 480).head? = some none ∧
    some (480 : ℤ) ∈ heightCandidates 1080 480 ∧
    heightCandidates 0 480 = [none] := by
  have h := height_candidates_characterization 1080 480 (by norm_num)
  exact ⟨h.1, h.2.2.2.2.1 (by norm_num), h.2.2.2.2.2.2.1⟩

end AdaptiveCompress
